import Mathlib

/-!
Shallow embedding of the apply layer of tidb-binlog's loader (the
change-merging and batch-execution engine of `src/unnamed/part_000`,
package `loader`) and of the payload loop of `Restore.Start`
(`src/restore/restore.go`), together with theorems checking the
natural-language specification against it.

Database effects are made explicit: each executor function returns the
sequence of transaction operations it performed (`TxOp`), the error log
entries it wrote (`LogEntry`) and the error value it propagated
(`Option SqlErr`).  The behaviour of the database driver is an oracle
`SqlStmt → Option SqlErr` saying which statement executions fail.
-/

namespace Loader

/-- The three change kinds, from the Go constants `InsertDMLType`,
`UpdateDMLType`, `DeleteDMLType`. -/
inductive DMLType where
  | InsertDMLType
  | UpdateDMLType
  | DeleteDMLType
deriving DecidableEq, Repr

open DMLType

/-- Modelled from the spec: per-table column metadata (`ColumnInfo`,
§3 Data Model), i.e. the ordered full column list and the subset that
forms the unique/primary key; the Go type is not under `src/`. -/
structure ColumnInfo where
  columns : List String
  primaryKey : List String
deriving DecidableEq, Repr

/-- Modelled from the spec: one Change Record (§3 Data Model); the Go
`DML` struct is not under `src/` (only its uses are).  `Values` and
`OldValues` are association lists from column name to value. -/
structure DML where
  Database : String
  Table : String
  Tp : DMLType
  Values : List (String × String)
  OldValues : List (String × String)
  info : ColumnInfo
deriving DecidableEq, Repr

/-- An error value as seen by callers; `msg` is the driver's message.
`errors.Trace` of the Go code only annotates an error with a source
location, leaving its content unchanged, and maps `nil` to `nil`; it is
therefore embedded as the identity on `Option SqlErr`. -/
structure SqlErr where
  msg : String
deriving DecidableEq, Repr

/-- One SQL statement together with its placeholder arguments. -/
structure SqlStmt where
  query : String
  args : List String
deriving DecidableEq, Repr

/-- One error-level log entry recording a failing statement and its
arguments (the `log.Error`/`log.Errorf` calls of the source). -/
structure LogEntry where
  query : String
  args : List String
deriving DecidableEq, Repr

/-- An operation performed on a database transaction. -/
inductive TxOp where
  | beginTx
  | execStmt (s : SqlStmt)
  | commitTx
  | rollbackTx
deriving DecidableEq, Repr

/-- What one executor call did: transaction operations in order, error
log entries in order, and the propagated error (`none` = success). -/
structure RunResult where
  ops : List TxOp
  logs : List LogEntry
  res : Option SqlErr
deriving DecidableEq, Repr

/-- The run of a call that touched the database not at all. -/
def emptyRun : RunResult := ⟨[], [], none⟩

/-- Look a column up in an association list of values; Go map lookup
yields the zero value for a missing key, embedded as `""`. -/
def lookupD (m : List (String × String)) (c : String) : String :=
  ((m.find? (fun p => p.1 == c)).map Prod.snd).getD ""

/-- Modelled from the spec: `quoteSchema`, referenced by the source but
not under `src/`; quotes a schema-qualified table name. -/
def quoteSchema (db table : String) : String :=
  "`" ++ db ++ "`.`" ++ table ++ "`"

/-- Modelled from the spec: `buildColumnList`, referenced by
`bulkReplace` but not under `src/`; joins the quoted column names. -/
def buildColumnList (cols : List String) : String :=
  String.intercalate "," (cols.map (fun c => "`" ++ c ++ "`"))

/-- Modelled from the spec: `holderString`, referenced by `bulkReplace`
but not under `src/`; `n` comma-separated placeholders. -/
def holderString (n : Nat) : String :=
  String.intercalate "," (List.replicate n "?")

/-- The value map a record's identity key is derived from: `Values` for
an insert, `OldValues` for an update or delete (spec §3 invariant). -/
def keySource (d : DML) : List (String × String) :=
  match d.Tp with
  | InsertDMLType => d.Values
  | _ => d.OldValues

/-- Modelled from the spec: the identity key of a Change Record,
derived from the primary-key columns (§3); the Go helper is not under
`src/`.  An empty string means "no usable key". -/
def formatKey (d : DML) : String :=
  if d.info.primaryKey.isEmpty then ""
  else String.intercalate "," (d.info.primaryKey.map (fun c => lookupD (keySource d) c))

/-- Modelled from the spec: `DML.deleteSQL()` (§4.1): DELETE with a
WHERE clause over the key columns bound to the old values. -/
def DML.deleteSQL (d : DML) : SqlStmt :=
  ⟨"DELETE FROM " ++ quoteSchema d.Database d.Table ++ " WHERE " ++
     String.intercalate " AND " (d.info.primaryKey.map (fun c => "`" ++ c ++ "` = ?")),
   d.info.primaryKey.map (fun c => lookupD d.OldValues c)⟩

/-- Modelled from the spec: `DML.replaceSQL()` (§4.1): an upsert-style
REPLACE over the full column list using `Values`. -/
def DML.replaceSQL (d : DML) : SqlStmt :=
  ⟨"REPLACE INTO " ++ quoteSchema d.Database d.Table ++ "(" ++
     buildColumnList d.info.columns ++ ") VALUES (" ++
     holderString d.info.columns.length ++ ")",
   d.info.columns.map (fun c => lookupD d.Values c)⟩

/-- Modelled from the spec: `DML.sql()` (§4.1): the natural statement
for the record's own kind. -/
def DML.sql (d : DML) : SqlStmt :=
  match d.Tp with
  | DeleteDMLType => d.deleteSQL
  | InsertDMLType =>
      ⟨"INSERT INTO " ++ quoteSchema d.Database d.Table ++ "(" ++
         buildColumnList d.info.columns ++ ") VALUES (" ++
         holderString d.info.columns.length ++ ")",
       d.info.columns.map (fun c => lookupD d.Values c)⟩
  | UpdateDMLType =>
      ⟨"UPDATE " ++ quoteSchema d.Database d.Table ++ " SET " ++
         String.intercalate ", " (d.info.columns.map (fun c => "`" ++ c ++ "` = ?")) ++
         " WHERE " ++
         String.intercalate " AND " (d.info.primaryKey.map (fun c => "`" ++ c ++ "` = ?")),
       d.info.columns.map (fun c => lookupD d.Values c) ++
         d.info.primaryKey.map (fun c => lookupD d.OldValues c)⟩

/-! ## Merge Engine (spec §4.2), modelled from the spec

`mergeByPrimaryKey` is called by `execTableBatch` but its body is not
under `src/`; it is modelled from spec §4.2: maintain a mapping from
key to current effective record and kind, then emit per key exactly one
effective record into the bucket of its final kind. -/

/-- The current effective record for one key and its effective kind. -/
structure EffRec where
  kind : DMLType
  record : DML
deriving DecidableEq, Repr

/-- Modelled from the spec: one step of the §4.2 state machine.  A
delete always wins as Delete; a write onto no prior live record keeps
insert semantics; a write onto a live record becomes Update. -/
def step (cur : Option EffRec) (d : DML) : EffRec :=
  match d.Tp with
  | DeleteDMLType => ⟨DeleteDMLType, d⟩
  | _ =>
    match cur with
    | none => ⟨d.Tp, d⟩
    | some er =>
      match er.kind with
      | DeleteDMLType => ⟨InsertDMLType, d⟩
      | _ => ⟨UpdateDMLType, d⟩

/-- The effective record after processing a key's changes in order. -/
def effOf (changes : List DML) : Option EffRec :=
  changes.foldl (fun c d => some (step c d)) none

/-- The sub-sequence of changes that target key `k`. -/
def changesFor (dmls : List DML) (k : String) : List DML :=
  dmls.filter (fun d => formatKey d == k)

/-- The kind of the last change for key `k`, if any. -/
def lastTpFor (dmls : List DML) (k : String) : Option DMLType :=
  ((changesFor dmls k).getLast?).map DML.Tp

/-- The record key `k` contributes to the bucket of kind `t`: its
effective record when its effective kind is `t`, nothing otherwise. -/
def emitFor (dmls : List DML) (t : DMLType) (k : String) : Option DML :=
  match effOf (changesFor dmls k) with
  | some er => if er.kind == t then some er.record else none
  | none => none

/-- Modelled from the spec: the bucket of effective records whose final
kind is `t`, one per distinct key (§4.2 "emit per key exactly one
effective record into the bucket matching its final kind"). -/
def bucketOf (dmls : List DML) (t : DMLType) : List DML :=
  ((dmls.map formatKey).dedup).filterMap (emitFor dmls t)

/-- The three buckets produced by the merge (the Go
`map[DMLType][]*DML`; a kind is present in the Go map iff its bucket
here is non-empty). -/
structure MergeResult where
  deletes : List DML
  inserts : List DML
  updates : List DML
deriving DecidableEq, Repr

/-- Modelled from the spec: `mergeByPrimaryKey` (§4.2), not under
`src/`.  Fails loudly if any record lacks a usable key, else buckets
the per-key effective records by final kind. -/
def mergeByPrimaryKey (dmls : List DML) : Except String MergeResult :=
  if dmls.any (fun d => formatKey d == "") then
    Except.error "invalid dml with no available key"
  else
    Except.ok ⟨bucketOf dmls DeleteDMLType, bucketOf dmls InsertDMLType,
               bucketOf dmls UpdateDMLType⟩

/-! ## Retry Controller (source lines 148-161 and 340-361)

`execTableBatchRetry` runs `for i := 0; i < retryNum; i++`, sleeping
the fixed backoff before every iteration except the first, returning
`nil` on the first success and `errors.Trace(err)` (the last observed
error; `nil` when the loop never ran) after the loop.  The outcome
records the number of attempts made, the number of sleeps performed
and the propagated error.  The result of the i-th attempt of the unit
of work is an oracle `Nat → Option SqlErr`. -/

/-- Outcome of a retry loop: attempts made, backoff sleeps performed,
and the error returned (`none` = success). -/
structure RetryOutcome where
  attempts : Nat
  sleeps : Nat
  res : Option SqlErr
deriving DecidableEq, Repr

/-- The loop body of `execTableBatchRetry` (source lines 150-159):
`i` is the Go loop counter, `remaining` the number of iterations the
guard `i < retryNum` still allows, `lastErr` the current value of the
Go variable `err`, `sleeps` the sleeps performed so far. -/
def retryFrom (attemptRes : Nat → Option SqlErr) :
    Nat → Nat → Option SqlErr → Nat → RetryOutcome
  | i, 0, lastErr, sleeps => ⟨i, sleeps, lastErr⟩
  | i, remaining + 1, _, sleeps =>
    let sleeps' := if 0 < i then sleeps + 1 else sleeps
    match attemptRes i with
    | none => ⟨i + 1, sleeps', none⟩
    | some e => retryFrom attemptRes (i + 1) remaining (some e) sleeps'

/-- `executor.execTableBatchRetry` (source lines 148-161); `retryNum`
is a Go `int`, so the loop runs `retryNum.toNat` times. -/
def execTableBatchRetry (attemptRes : Nat → Option SqlErr) (retryNum : Int) : RetryOutcome :=
  retryFrom attemptRes 0 retryNum.toNat none 0

/-- Chunking recursion for `splitDMLs`, on a structural fuel so the
definition computes by reduction; every step consumes at least one
record, so fuel `dmls.length + 1` always suffices. -/
def splitDMLsFuel : Nat → List DML → Nat → List (List DML)
  | 0, _, _ => []
  | fuel + 1, dmls, size =>
    if dmls.isEmpty then []
    else if size = 0 then [dmls]
    else dmls.take size :: splitDMLsFuel fuel (dmls.drop size) size

/-- Modelled from the spec: `splitDMLs`, referenced by `splitExecDML`
and `singleExecRetry` but not under `src/`; partitions a bucket into
ordered sub-sequences of length at most `size` (§4.3), preserving
order. -/
def splitDMLs (dmls : List DML) (size : Nat) : List (List DML) :=
  splitDMLsFuel (dmls.length + 1) dmls size

/-- `executor.singleExecRetry` (source lines 340-361): applies the
same retry loop to each size-bounded group in turn, aborting on the
first group whose retries are exhausted.  `groupRes gi i` is the
result of attempt `i` of group `gi`.  Returns the outcomes of the
groups processed and the propagated error. -/
def singleExecRetryAux (groupRes : Nat → Nat → Option SqlErr) (retryNum : Int) :
    Nat → List (List DML) → List RetryOutcome × Option SqlErr
  | _, [] => ([], none)
  | gi, _ :: rest =>
    let o := retryFrom (groupRes gi) 0 retryNum.toNat none 0
    match o.res with
    | some e => ([o], some e)
    | none =>
      let r := singleExecRetryAux groupRes retryNum (gi + 1) rest
      (o :: r.1, r.2)

/-- `executor.singleExecRetry` over the groups of `splitDMLs`. -/
def singleExecRetry (groupRes : Nat → Nat → Option SqlErr) (allDMLs : List DML)
    (size : Nat) (retryNum : Int) : List RetryOutcome × Option SqlErr :=
  singleExecRetryAux groupRes retryNum 0 (splitDMLs allDMLs size)

/-! ## Transactional Executor (source lines 163-202) -/

/-- `tx.exec` (source lines 170-178): runs one statement and records a
metric; it performs no rollback and no commit, whatever the result. -/
def txExec (oracle : SqlStmt → Option SqlErr) (s : SqlStmt) :
    List TxOp × Option SqlErr :=
  ([TxOp.execStmt s], oracle s)

/-! ## Batch application (source lines 204-338)

Each function is parameterised by the statement-failure oracle and by
the results of `begin()` and `commit()` for the transaction it opens.
-/

/-- The single multi-statement text and argument list `bulkDelete`
builds (source lines 205-213): each record's natural `sql()` text
followed by a semicolon, arguments concatenated. -/
def bulkDeleteStmt (deletes : List DML) : SqlStmt :=
  ⟨String.join (deletes.map (fun d => d.sql.query ++ ";")),
   deletes.flatMap (fun d => d.sql.args)⟩

/-- `executor.bulkDelete` (source lines 204-231).  Note the source has
no empty-slice guard: it opens a transaction and executes the (empty)
statement even for an empty slice. -/
def bulkDelete (oracle : SqlStmt → Option SqlErr) (beginErr commitErr : Option SqlErr)
    (deletes : List DML) : RunResult :=
  let s := bulkDeleteStmt deletes
  match beginErr with
  | some e => ⟨[], [], some e⟩
  | none =>
    match oracle s with
    | some e => ⟨[TxOp.beginTx, TxOp.execStmt s, TxOp.rollbackTx], [⟨s.query, s.args⟩], some e⟩
    | none =>
      match commitErr with
      | some e => ⟨[TxOp.beginTx, TxOp.execStmt s, TxOp.commitTx], [], some e⟩
      | none => ⟨[TxOp.beginTx, TxOp.execStmt s, TxOp.commitTx], [], none⟩

/-- The single multi-row REPLACE statement `bulkReplace` builds for a
non-empty slice (source lines 238-260): one placeholder group per row,
column order fixed by the first record's `info.columns`, arguments
taken from each record's `Values` in column order. -/
def bulkReplaceStmt (inserts : List DML) : SqlStmt :=
  match inserts with
  | [] => ⟨"", []⟩
  | first :: _ =>
    ⟨"REPLACE INTO " ++ quoteSchema first.Database first.Table ++ "(" ++
       buildColumnList first.info.columns ++ ") VALUES " ++
       String.intercalate ","
         (List.replicate inserts.length ("(" ++ holderString first.info.columns.length ++ ")")),
     inserts.flatMap (fun ins => first.info.columns.map (fun c => lookupD ins.Values c))⟩

/-- `executor.bulkReplace` (source lines 233-278): returns nil at once
for an empty slice, else one transaction around one exec. -/
def bulkReplace (oracle : SqlStmt → Option SqlErr) (beginErr commitErr : Option SqlErr)
    (inserts : List DML) : RunResult :=
  if inserts.isEmpty then ⟨[], [], none⟩
  else
    let s := bulkReplaceStmt inserts
    match beginErr with
    | some e => ⟨[], [], some e⟩
    | none =>
      match oracle s with
      | some e => ⟨[TxOp.beginTx, TxOp.execStmt s, TxOp.rollbackTx], [⟨s.query, s.args⟩], some e⟩
      | none =>
        match commitErr with
        | some e => ⟨[TxOp.beginTx, TxOp.execStmt s, TxOp.commitTx], [], some e⟩
        | none => ⟨[TxOp.beginTx, TxOp.execStmt s, TxOp.commitTx], [], none⟩

/-- The completion order of the concurrent sub-batches of
`splitExecDML`: the schedule `sched` when it is a permutation of the
sub-batch indices, else (to keep the model total) the identity
order. -/
def schedOrder (n : Nat) (sched : List Nat) : List Nat :=
  if sched.isPerm (List.range n) then sched else List.range n

/-- `executor.splitExecDML` (source lines 322-338): runs `exec` on
each `splitDMLs` sub-batch in its own goroutine and waits for all of
them (`errgroup.Wait`), so every sub-batch runs to completion; the
returned error is the first error in completion order (`errgroup`
keeps the first error reported to it). -/
def splitExecDML (execF : List DML → RunResult) (dmls : List DML) (size : Nat)
    (sched : List Nat) : RunResult :=
  let splits := splitDMLs dmls size
  let runs := (schedOrder splits.length sched).map (fun i => execF (splits.getD i []))
  ⟨runs.flatMap RunResult.ops, runs.flatMap RunResult.logs,
   (runs.filterMap RunResult.res).head?⟩

/-- The trace of one whole `execTableBatch` call: the delete-bucket
application, then the insert-bucket application, then the
update-bucket application (each `emptyRun` when never started), and
the propagated error. -/
structure BatchRun where
  delRun : RunResult
  insRun : RunResult
  updRun : RunResult
  res : Option SqlErr
deriving DecidableEq, Repr

/-- `executor.execTableBatch` (source lines 286-320): empty input is a
no-op; else merge, then apply the Delete bucket, the Insert bucket and
the Update bucket in that order through `splitExecDML`, stopping at
the first failing bucket. -/
def execTableBatch (oracle : SqlStmt → Option SqlErr) (beginErr commitErr : Option SqlErr)
    (dmls : List DML) (size : Nat) (schedD schedI schedU : List Nat) : BatchRun :=
  if dmls.isEmpty then ⟨emptyRun, emptyRun, emptyRun, none⟩
  else
    match mergeByPrimaryKey dmls with
    | Except.error m => ⟨emptyRun, emptyRun, emptyRun, some ⟨m⟩⟩
    | Except.ok r =>
      let dRun := splitExecDML (bulkDelete oracle beginErr commitErr) r.deletes size schedD
      match dRun.res with
      | some e => ⟨dRun, emptyRun, emptyRun, some e⟩
      | none =>
        let iRun := splitExecDML (bulkReplace oracle beginErr commitErr) r.inserts size schedI
        match iRun.res with
        | some e => ⟨dRun, iRun, emptyRun, some e⟩
        | none =>
          let uRun := splitExecDML (bulkReplace oracle beginErr commitErr) r.updates size schedU
          ⟨dRun, iRun, uRun, uRun.res⟩

/-! ## Safe-Mode Single Executor (source lines 363-411) -/

/-- The statements `singleExec` issues for one record (the three
branches of source lines 370-406): in safe mode an update becomes its
`deleteSQL()` then its `replaceSQL()` and an insert its `replaceSQL()`;
every other record (and everything outside safe mode) uses its natural
`sql()`. -/
def stmtsFor (safeMode : Bool) (d : DML) : List SqlStmt :=
  if safeMode && d.Tp == UpdateDMLType then [d.deleteSQL, d.replaceSQL]
  else if safeMode && d.Tp == InsertDMLType then [d.replaceSQL]
  else [d.sql]

/-- Sequential execution of a statement list inside one transaction:
stops at the first failing statement, logging it (the `log.Errorf`
calls of `singleExec`); performs no rollback or commit itself. -/
def execStmts (oracle : SqlStmt → Option SqlErr) :
    List SqlStmt → List TxOp × List LogEntry × Option SqlErr
  | [] => ([], [], none)
  | s :: rest =>
    match oracle s with
    | some e => ([TxOp.execStmt s], [⟨s.query, s.args⟩], some e)
    | none =>
      let r := execStmts oracle rest
      (TxOp.execStmt s :: r.1, r.2.1, r.2.2)

/-- The per-record loop of `singleExec` (source lines 369-407),
mirroring its three branches: each branch executes its statements and
the first statement error aborts the loop. -/
def singleExecLoop (oracle : SqlStmt → Option SqlErr) (safeMode : Bool) :
    List DML → List TxOp × List LogEntry × Option SqlErr
  | [] => ([], [], none)
  | d :: rest =>
    if safeMode && d.Tp == UpdateDMLType then
      match oracle d.deleteSQL with
      | some e => ([TxOp.execStmt d.deleteSQL], [⟨d.deleteSQL.query, d.deleteSQL.args⟩], some e)
      | none =>
        match oracle d.replaceSQL with
        | some e =>
          ([TxOp.execStmt d.deleteSQL, TxOp.execStmt d.replaceSQL],
           [⟨d.replaceSQL.query, d.replaceSQL.args⟩], some e)
        | none =>
          let r := singleExecLoop oracle safeMode rest
          (TxOp.execStmt d.deleteSQL :: TxOp.execStmt d.replaceSQL :: r.1, r.2.1, r.2.2)
    else if safeMode && d.Tp == InsertDMLType then
      match oracle d.replaceSQL with
      | some e => ([TxOp.execStmt d.replaceSQL], [⟨d.replaceSQL.query, d.replaceSQL.args⟩], some e)
      | none =>
        let r := singleExecLoop oracle safeMode rest
        (TxOp.execStmt d.replaceSQL :: r.1, r.2.1, r.2.2)
    else
      match oracle d.sql with
      | some e => ([TxOp.execStmt d.sql], [⟨d.sql.query, d.sql.args⟩], some e)
      | none =>
        let r := singleExecLoop oracle safeMode rest
        (TxOp.execStmt d.sql :: r.1, r.2.1, r.2.2)

/-- `executor.singleExec` (source lines 363-411): one transaction
around the sequential loop; the first statement error rolls back and
aborts the group, success commits (a commit error is propagated
without rollback). -/
def singleExec (oracle : SqlStmt → Option SqlErr) (beginErr commitErr : Option SqlErr)
    (dmls : List DML) (safeMode : Bool) : RunResult :=
  match beginErr with
  | some e => ⟨[], [], some e⟩
  | none =>
    let r := singleExecLoop oracle safeMode dmls
    match r.2.2 with
    | some e => ⟨TxOp.beginTx :: r.1 ++ [TxOp.rollbackTx], r.2.1, some e⟩
    | none => ⟨TxOp.beginTx :: r.1 ++ [TxOp.commitTx], r.2.1, commitErr⟩

end Loader

namespace Restore

open Loader (SqlErr)

/-- One decoded binlog payload as seen by the `Restore.Start` loop
(`src/restore/restore.go` lines 57-77): the translation result and the
result of `executor.Execute` on it.  File iteration, binlog decoding
and the executor itself are external collaborators, so their outcomes
are data of the payload. -/
structure Payload where
  sqls : List String
  argss : List (List String)
  isDDL : Bool
  translateErr : Option SqlErr
  execErr : Option SqlErr
deriving DecidableEq, Repr

/-- What a `Restore.Start` payload loop did: how many payloads were
passed to `executor.Execute`, the ignored-error warnings logged in
order, and the returned error. -/
structure StartRun where
  executed : Nat
  warns : List SqlErr
  res : Option SqlErr
deriving DecidableEq, Repr

/-- The payload loop of `Restore.Start` (`restore.go` lines 57-77):
a translation error is returned; an execution error is returned unless
the external classifier `ign` (`pkgsql.IgnoreDDLError`) accepts it, in
which case it is logged as a warning and processing continues. -/
def startLoop (ign : SqlErr → Bool) : List Payload → StartRun
  | [] => ⟨0, [], none⟩
  | p :: rest =>
    match p.translateErr with
    | some e => ⟨0, [], some e⟩
    | none =>
      match p.execErr with
      | none =>
        let r := startLoop ign rest
        ⟨r.executed + 1, r.warns, r.res⟩
      | some e =>
        if ign e then
          let r := startLoop ign rest
          ⟨r.executed + 1, e :: r.warns, r.res⟩
        else ⟨1, [], some e⟩

end Restore

namespace Loader

/-! ## Concrete data for evaluating the definitions

The records of the spec's §8 concrete scenarios: a table keyed by
`id` with columns `id, v`. -/

/-- Column metadata of the §8 scenario table. -/
def specInfo : ColumnInfo := ⟨["id", "v"], ["id"]⟩

/-- `Insert(id=1,v=a)` of spec §8. -/
def specIns1 : DML :=
  ⟨"db", "t", DMLType.InsertDMLType, [("id", "1"), ("v", "a")], [], specInfo⟩

/-- `Update(id=1,v=b)` of spec §8. -/
def specUpd1 : DML :=
  ⟨"db", "t", DMLType.UpdateDMLType, [("id", "1"), ("v", "b")],
   [("id", "1"), ("v", "a")], specInfo⟩

/-- `Delete(id=2)` of spec §8. -/
def specDel2 : DML :=
  ⟨"db", "t", DMLType.DeleteDMLType, [], [("id", "2"), ("v", "z")], specInfo⟩

/-- `Insert(id=2,v=c)` of spec §8. -/
def specIns2 : DML :=
  ⟨"db", "t", DMLType.InsertDMLType, [("id", "2"), ("v", "c")], [], specInfo⟩

/-- The §8 scenario input `[Insert(1,a), Update(1,b), Delete(2), Insert(2,c)]`. -/
def specDMLs : List DML := [specIns1, specUpd1, specDel2, specIns2]

/-- The merge result of `specDMLs`. -/
def specMerge : MergeResult := ⟨[], [specIns2], [specUpd1]⟩

/-- An oracle under which every statement succeeds. -/
def oraNone : SqlStmt → Option SqlErr := fun _ => none

/-- An oracle under which every statement fails with a fixed driver
error whose message carries no statement text. -/
def oraDup : SqlStmt → Option SqlErr := fun _ => some ⟨"Duplicate entry"⟩

end Loader

namespace Loader

open DMLType

/-! ## Merge Engine lemmas -/

lemma step_record (cur : Option EffRec) (d : DML) : (step cur d).record = d := by
  unfold step
  rcases cur with _ | ⟨kind, record⟩
  · cases d.Tp <;> simp
  · cases d.Tp <;> cases kind <;> simp

lemma step_kind (cur : Option EffRec) (d : DML) :
    (step cur d).kind = DeleteDMLType ↔ d.Tp = DeleteDMLType := by
  unfold step
  rcases cur with _ | ⟨kind, record⟩
  · cases d.Tp <;> simp
  · cases d.Tp <;> cases kind <;> simp

lemma effOf_concat (l : List DML) (d : DML) :
    effOf (l ++ [d]) = some (step (effOf l) d) := by
  simp [effOf, List.foldl_append]

lemma effOf_some {l : List DML} {er : EffRec} (h : effOf l = some er) :
    er.record ∈ l ∧ l.getLast? = some er.record ∧
      (er.kind = DeleteDMLType ↔ er.record.Tp = DeleteDMLType) := by
  induction l using List.reverseRecOn with
  | nil => simp [effOf] at h
  | append_singleton l d _ =>
    rw [effOf_concat] at h
    obtain rfl : step (effOf l) d = er := Option.some_inj.mp h
    refine ⟨?_, ?_, ?_⟩
    · simp [step_record]
    · simp [step_record, List.getLast?_concat]
    · rw [step_record]; exact step_kind _ _

lemma effOf_ne_nil {l : List DML} (h : l ≠ []) : ∃ er, effOf l = some er := by
  rcases l.eq_nil_or_concat with rfl | ⟨l', d, rfl⟩
  · exact absurd rfl h
  · rw [List.concat_eq_append]
    exact ⟨_, effOf_concat l' d⟩

lemma mem_changesFor {dmls : List DML} {k : String} {d : DML} :
    d ∈ changesFor dmls k ↔ d ∈ dmls ∧ formatKey d = k := by
  simp [changesFor, List.mem_filter]

lemma changesFor_ne_nil {dmls : List DML} {k : String}
    (h : k ∈ dmls.map formatKey) : changesFor dmls k ≠ [] := by
  obtain ⟨d, hd, rfl⟩ := List.mem_map.mp h
  intro hb
  have : d ∈ changesFor dmls (formatKey d) := mem_changesFor.mpr ⟨hd, rfl⟩
  rw [hb] at this
  exact absurd this (List.not_mem_nil d)

lemma emitFor_some {dmls : List DML} {t : DMLType} {k : String} {d : DML} :
    emitFor dmls t k = some d ↔
      ∃ er, effOf (changesFor dmls k) = some er ∧ er.kind = t ∧ er.record = d := by
  unfold emitFor
  cases h : effOf (changesFor dmls k) with
  | none => simp
  | some er =>
    by_cases hk : er.kind = t
    · simp [hk, eq_comm]
    · simp [hk, Ne.symm hk]

lemma emitFor_key {dmls : List DML} {t : DMLType} {k : String} {d : DML}
    (h : emitFor dmls t k = some d) : formatKey d = k := by
  obtain ⟨er, he, _, rfl⟩ := emitFor_some.mp h
  exact (mem_changesFor.mp (effOf_some he).1).2

lemma mem_bucketOf {dmls : List DML} {t : DMLType} {d : DML} :
    d ∈ bucketOf dmls t ↔
      ∃ k, k ∈ (dmls.map formatKey).dedup ∧ emitFor dmls t k = some d := by
  simp [bucketOf, List.mem_filterMap]

lemma countP_filterMap_emit (dmls : List DML) (t : DMLType) (k : String) :
    ∀ ks : List String, ks.Nodup →
      ((ks.filterMap (emitFor dmls t)).countP (fun d => formatKey d == k)) =
        if k ∈ ks ∧ (emitFor dmls t k).isSome then 1 else 0 := by
  intro ks
  induction ks with
  | nil => simp
  | cons k' ks ih =>
    intro hnd
    obtain ⟨hk', hnd'⟩ := List.nodup_cons.mp hnd
    cases hek : emitFor dmls t k' with
    | none =>
      rw [List.filterMap_cons_none hek, ih hnd']
      by_cases hkk : k = k'
      · subst hkk
        simp [hek, hk']
      · simp [List.mem_cons, hkk]
    | some d =>
      rw [List.filterMap_cons_some hek]
      have hkey : formatKey d = k' := emitFor_key hek
      by_cases hkk : k = k'
      · subst hkk
        rw [List.countP_cons_of_pos _ _ (by simp [hkey]), ih hnd']
        simp [hk', hek]
      · rw [List.countP_cons_of_neg _ _ (by simp [hkey, Ne.symm hkk]), ih hnd']
        simp [List.mem_cons, hkk]

lemma countP_bucketOf (dmls : List DML) (t : DMLType) (k : String) :
    (bucketOf dmls t).countP (fun d => formatKey d == k) =
      if k ∈ (dmls.map formatKey).dedup ∧ (emitFor dmls t k).isSome then 1 else 0 :=
  countP_filterMap_emit dmls t k _ (List.nodup_dedup _)

/-- Claim C1: for every sequence of Change Records on one table,
`mergeByPrimaryKey` (as invoked by `execTableBatch`) yields, for each
distinct key, exactly one effective record; its bucket is the Delete
bucket exactly when the last change for that key was a delete, and
otherwise it lands in the Insert or the Update bucket; the three
buckets are key-disjoint; and each emitted record is the last change
recorded for its key. -/
theorem mergeByPrimaryKey_spec (dmls : List DML) (r : MergeResult)
    (hk : ∀ d ∈ dmls, formatKey d ≠ "")
    (hm : mergeByPrimaryKey dmls = Except.ok r) :
    (∀ k ∈ dmls.map formatKey,
       ((r.deletes ++ r.inserts ++ r.updates).countP (fun d => formatKey d == k)) = 1) ∧
    (∀ k ∈ dmls.map formatKey,
       ((∃ d ∈ r.deletes, formatKey d = k) ↔ lastTpFor dmls k = some DeleteDMLType)) ∧
    (∀ k ∈ dmls.map formatKey, lastTpFor dmls k ≠ some DeleteDMLType →
       ((∃ d ∈ r.inserts, formatKey d = k) ∨ (∃ d ∈ r.updates, formatKey d = k))) ∧
    (∀ k : String, ¬((∃ d ∈ r.deletes, formatKey d = k) ∧ (∃ d ∈ r.inserts, formatKey d = k))) ∧
    (∀ k : String, ¬((∃ d ∈ r.deletes, formatKey d = k) ∧ (∃ d ∈ r.updates, formatKey d = k))) ∧
    (∀ k : String, ¬((∃ d ∈ r.inserts, formatKey d = k) ∧ (∃ d ∈ r.updates, formatKey d = k))) ∧
    (∀ d ∈ r.deletes ++ r.inserts ++ r.updates,
       (changesFor dmls (formatKey d)).getLast? = some d) := by
  have hany : dmls.any (fun d => formatKey d == "") = false := by
    rw [List.any_eq_false]
    intro d hd
    simpa using hk d hd
  rw [mergeByPrimaryKey, hany] at hm
  simp only [Bool.false_eq_true, if_false] at hm
  obtain rfl : (⟨bucketOf dmls DeleteDMLType, bucketOf dmls InsertDMLType,
      bucketOf dmls UpdateDMLType⟩ : MergeResult) = r := by
    cases hm
    rfl
  -- membership in a bucket, phrased through the effective record
  have hmemb : ∀ (t : DMLType) (k : String), k ∈ dmls.map formatKey →
      ((∃ d ∈ bucketOf dmls t, formatKey d = k) ↔
        ∃ er, effOf (changesFor dmls k) = some er ∧ er.kind = t) := by
    intro t k hkin
    constructor
    · rintro ⟨d, hd, hdk⟩
      obtain ⟨k', _, he'⟩ := mem_bucketOf.mp hd
      have : k' = k := by rw [← emitFor_key he', hdk]
      subst this
      obtain ⟨er, he, hkind, _⟩ := emitFor_some.mp he'
      exact ⟨er, he, hkind⟩
    · rintro ⟨er, he, hkind⟩
      refine ⟨er.record, mem_bucketOf.mpr ⟨k, List.mem_dedup.mpr hkin, ?_⟩, ?_⟩
      · exact emitFor_some.mpr ⟨er, he, hkind, rfl⟩
      · exact (mem_changesFor.mp (effOf_some he).1).2
  -- the effective kind decides the last change's kind
  have hlast : ∀ (k : String) (er : EffRec), effOf (changesFor dmls k) = some er →
      (lastTpFor dmls k = some DeleteDMLType ↔ er.kind = DeleteDMLType) := by
    intro k er he
    obtain ⟨_, hgl, hiff⟩ := effOf_some he
    rw [lastTpFor, hgl]
    simp [hiff]
  refine ⟨?_, ?_, ?_, ?_, ?_, ?_, ?_⟩
  · -- exactly one effective record per key
    intro k hkin
    obtain ⟨er, he⟩ := effOf_ne_nil (changesFor_ne_nil hkin)
    have hke : k ∈ (dmls.map formatKey).dedup := List.mem_dedup.mpr hkin
    have hsome : ∀ t, (emitFor dmls t k).isSome = (er.kind == t) := by
      intro t
      unfold emitFor
      rw [he]
      by_cases h : er.kind = t <;> simp [h]
    simp only [List.countP_append, countP_bucketOf, hsome, hke, true_and]
    cases er.kind <;> simp
  · -- bucket is Delete iff the last change was a delete
    intro k hkin
    rw [hmemb DeleteDMLType k hkin]
    obtain ⟨er, he⟩ := effOf_ne_nil (changesFor_ne_nil hkin)
    rw [hlast k er he]
    constructor
    · rintro ⟨er', he', hk'⟩
      rw [he] at he'
      cases he'
      exact hk'
    · intro h
      exact ⟨er, he, h⟩
  · -- otherwise the record lands in the Insert or the Update bucket
    intro k hkin hnd
    obtain ⟨er, he⟩ := effOf_ne_nil (changesFor_ne_nil hkin)
    have hkd : er.kind ≠ DeleteDMLType := fun h => hnd ((hlast k er he).mpr h)
    cases hker : er.kind with
    | DeleteDMLType => exact absurd hker hkd
    | InsertDMLType =>
      exact Or.inl ((hmemb InsertDMLType k hkin).mpr ⟨er, he, hker⟩)
    | UpdateDMLType =>
      exact Or.inr ((hmemb UpdateDMLType k hkin).mpr ⟨er, he, hker⟩)
  · -- deletes and inserts are key-disjoint
    rintro k ⟨⟨d, hd, hdk⟩, ⟨d', hd', hd'k⟩⟩
    obtain ⟨k1, _, he1⟩ := mem_bucketOf.mp hd
    obtain ⟨k2, _, he2⟩ := mem_bucketOf.mp hd'
    have hk1 : k1 = k := by rw [← emitFor_key he1, hdk]
    have hk2 : k2 = k := by rw [← emitFor_key he2, hd'k]
    subst hk1; subst hk2
    obtain ⟨er1, hee1, hkd1, _⟩ := emitFor_some.mp he1
    obtain ⟨er2, hee2, hkd2, _⟩ := emitFor_some.mp he2
    rw [hee1] at hee2
    cases hee2
    rw [hkd1] at hkd2
    exact absurd hkd2 (by simp)
  · -- deletes and updates are key-disjoint
    rintro k ⟨⟨d, hd, hdk⟩, ⟨d', hd', hd'k⟩⟩
    obtain ⟨k1, _, he1⟩ := mem_bucketOf.mp hd
    obtain ⟨k2, _, he2⟩ := mem_bucketOf.mp hd'
    have hk1 : k1 = k := by rw [← emitFor_key he1, hdk]
    have hk2 : k2 = k := by rw [← emitFor_key he2, hd'k]
    subst hk1; subst hk2
    obtain ⟨er1, hee1, hkd1, _⟩ := emitFor_some.mp he1
    obtain ⟨er2, hee2, hkd2, _⟩ := emitFor_some.mp he2
    rw [hee1] at hee2
    cases hee2
    rw [hkd1] at hkd2
    exact absurd hkd2 (by simp)
  · -- inserts and updates are key-disjoint
    rintro k ⟨⟨d, hd, hdk⟩, ⟨d', hd', hd'k⟩⟩
    obtain ⟨k1, _, he1⟩ := mem_bucketOf.mp hd
    obtain ⟨k2, _, he2⟩ := mem_bucketOf.mp hd'
    have hk1 : k1 = k := by rw [← emitFor_key he1, hdk]
    have hk2 : k2 = k := by rw [← emitFor_key he2, hd'k]
    subst hk1; subst hk2
    obtain ⟨er1, hee1, hkd1, _⟩ := emitFor_some.mp he1
    obtain ⟨er2, hee2, hkd2, _⟩ := emitFor_some.mp he2
    rw [hee1] at hee2
    cases hee2
    rw [hkd1] at hkd2
    exact absurd hkd2 (by simp)
  · -- every emitted record is the last change for its key
    intro d hd
    have hd' : d ∈ bucketOf dmls DeleteDMLType ∨ d ∈ bucketOf dmls InsertDMLType ∨
        d ∈ bucketOf dmls UpdateDMLType := by
      simpa [List.mem_append, or_assoc] using hd
    have : ∃ t, d ∈ bucketOf dmls t := by
      rcases hd' with h | h | h
      exacts [⟨_, h⟩, ⟨_, h⟩, ⟨_, h⟩]
    obtain ⟨t, ht⟩ := this
    obtain ⟨k', _, he'⟩ := mem_bucketOf.mp ht
    obtain ⟨er, he, _, rfl⟩ := emitFor_some.mp he'
    rw [emitFor_key he']
    exact (effOf_some he).2.1

/-- Witness for C1 at the spec §8 scenario
`[Insert(1,a), Update(1,b), Delete(2), Insert(2,c)]`. -/
theorem mergeByPrimaryKey_spec_witness :
    ("1" ∈ specDMLs.map formatKey) ∧
    ((specMerge.deletes ++ specMerge.inserts ++ specMerge.updates).countP
        (fun d => formatKey d == "1") = 1) ∧
    (lastTpFor specDMLs "2" ≠ some DMLType.DeleteDMLType) ∧
    ((∃ d ∈ specMerge.inserts, formatKey d = "2") ∨
      (∃ d ∈ specMerge.updates, formatKey d = "2")) := by
  have h := mergeByPrimaryKey_spec specDMLs specMerge (by decide) (by rfl)
  exact ⟨by decide, h.1 "1" (by decide), by decide, h.2.2.1 "2" (by decide) (by decide)⟩

/-! ## Retry Controller lemmas -/

lemma retryFrom_success_pos (a : Nat → Option SqlErr) :
    ∀ (j i r s : Nat) (le : Option SqlErr), 1 ≤ i → j < r → a (i + j) = none →
      (∀ k < j, a (i + k) ≠ none) →
      retryFrom a i r le s = ⟨i + j + 1, s + j + 1, none⟩ := by
  intro j
  induction j with
  | zero =>
    intro i r s le hi hjr ha _
    obtain ⟨r', rfl⟩ : ∃ r', r = r' + 1 := ⟨r - 1, by omega⟩
    rw [Nat.add_zero] at ha
    simp [retryFrom, ha, Nat.lt_of_lt_of_le Nat.zero_lt_one hi]
  | succ j ih =>
    intro i r s le hi hjr ha hprev
    obtain ⟨r', rfl⟩ : ∃ r', r = r' + 1 := ⟨r - 1, by omega⟩
    obtain ⟨e, he⟩ : ∃ e, a i = some e := by
      cases h : a i with
      | none => exact absurd h (by simpa using hprev 0 (Nat.succ_pos j))
      | some e => exact ⟨e, rfl⟩
    have hstep := ih (i + 1) r' (s + 1) (some e) (by omega) (by omega)
      (by rw [show i + 1 + j = i + (j + 1) by omega]; exact ha)
      (fun k hk => by
        rw [show i + 1 + k = i + (k + 1) by omega]
        exact hprev (k + 1) (by omega))
    simp only [retryFrom, he, Nat.lt_of_lt_of_le Nat.zero_lt_one hi, if_pos]
    rw [hstep]
    simp only [RetryOutcome.mk.injEq]
    exact ⟨by omega, by omega, by simp⟩

lemma retryFrom_success (a : Nat → Option SqlErr) (j r s : Nat) (le : Option SqlErr)
    (hjr : j < r) (ha : a j = none) (hprev : ∀ k < j, a k ≠ none) :
    retryFrom a 0 r le s = ⟨j + 1, s + j, none⟩ := by
  cases j with
  | zero =>
    obtain ⟨r', rfl⟩ : ∃ r', r = r' + 1 := ⟨r - 1, by omega⟩
    simp [retryFrom, ha]
  | succ j' =>
    obtain ⟨r', rfl⟩ : ∃ r', r = r' + 1 := ⟨r - 1, by omega⟩
    obtain ⟨e, he⟩ : ∃ e, a 0 = some e := by
      cases h : a 0 with
      | none => exact absurd h (hprev 0 (Nat.succ_pos j'))
      | some e => exact ⟨e, rfl⟩
    have hstep := retryFrom_success_pos a j' 1 r' s (some e) (le_refl 1)
      (by omega) (by rw [show 1 + j' = j' + 1 by omega]; exact ha)
      (fun k hk => by
        rw [show 1 + k = k + 1 by omega]
        exact hprev (k + 1) (by omega))
    simp only [retryFrom, he, Nat.lt_irrefl, if_neg, not_false_iff]
    rw [hstep]
    simp only [RetryOutcome.mk.injEq]
    exact ⟨by omega, by omega, by simp⟩

lemma retryFrom_exhaust_pos (a : Nat → Option SqlErr) :
    ∀ (r i s : Nat) (le : Option SqlErr), 1 ≤ r → 1 ≤ i →
      (∀ k < r, a (i + k) ≠ none) →
      retryFrom a i r le s = ⟨i + r, s + r, a (i + (r - 1))⟩ := by
  intro r
  induction r with
  | zero => omega
  | succ r ih =>
    intro i s le _ hi hall
    obtain ⟨e, he⟩ : ∃ e, a i = some e := by
      cases h : a i with
      | none => exact absurd h (by simpa using hall 0 (Nat.succ_pos r))
      | some e => exact ⟨e, rfl⟩
    cases Nat.eq_zero_or_pos r with
    | inl hr0 =>
      subst hr0
      simp [retryFrom, he, Nat.lt_of_lt_of_le Nat.zero_lt_one hi]
    | inr hr =>
      have hstep := ih (i + 1) (s + 1) (some e) hr (by omega)
        (fun k hk => by
          rw [show i + 1 + k = i + (k + 1) by omega]
          exact hall (k + 1) (by omega))
      simp only [retryFrom, he, Nat.lt_of_lt_of_le Nat.zero_lt_one hi, if_pos]
      rw [hstep]
      simp only [RetryOutcome.mk.injEq]
      refine ⟨by omega, by omega, by rw [show i + 1 + (r - 1) = i + (r + 1 - 1) by omega]⟩

lemma retryFrom_exhaust (a : Nat → Option SqlErr) (r s : Nat) (le : Option SqlErr)
    (hr : 1 ≤ r) (hall : ∀ k < r, a k ≠ none) :
    retryFrom a 0 r le s = ⟨r, s + r - 1, a (r - 1)⟩ := by
  obtain ⟨e, he⟩ : ∃ e, a 0 = some e := by
    cases h : a 0 with
    | none => exact absurd h (hall 0 hr)
    | some e => exact ⟨e, rfl⟩
  obtain ⟨r', rfl⟩ : ∃ r', r = r' + 1 := ⟨r - 1, by omega⟩
  cases Nat.eq_zero_or_pos r' with
  | inl hr0 =>
    subst hr0
    simp [retryFrom, he]
  | inr hr' =>
    have hstep := retryFrom_exhaust_pos a r' 1 s (some e) hr' (le_refl 1)
      (fun k hk => by
        rw [show 1 + k = k + 1 by omega]
        exact hall (k + 1) (by omega))
    simp only [retryFrom, he, Nat.lt_irrefl, if_neg, not_false_iff]
    rw [hstep]
    simp only [RetryOutcome.mk.injEq]
    refine ⟨by omega, by omega, by rw [show 1 + (r' - 1) = r' + 1 - 1 by omega]⟩

lemma singleExecRetryAux_get (groupRes : Nat → Nat → Option SqlErr) (rn : Int) :
    ∀ (gs : List (List DML)) (g0 gi : Nat) (out : RetryOutcome),
      ((singleExecRetryAux groupRes rn g0 gs).1).get? gi = some out →
      out = retryFrom (groupRes (g0 + gi)) 0 rn.toNat none 0 := by
  intro gs
  induction gs with
  | nil =>
    intro g0 gi out h
    simp [singleExecRetryAux] at h
  | cons g rest ih =>
    intro g0 gi out h
    rw [singleExecRetryAux] at h
    cases hres : (retryFrom (groupRes g0) 0 rn.toNat none 0).res with
    | some e =>
      rw [hres] at h
      simp only [List.get?] at h
      cases gi with
      | zero =>
        cases h
        simp
      | succ gi' => simp at h
    | none =>
      rw [hres] at h
      simp only [List.get?] at h
      cases gi with
      | zero =>
        cases h
        simp
      | succ gi' =>
        have := ih (g0 + 1) gi' out h
        rw [this, show g0 + 1 + gi' = g0 + (gi' + 1) by omega]

/-- Claim C4: for `retryNum ≥ 1`, `execTableBatchRetry` makes at most
`retryNum` attempts, sleeps exactly once before every attempt except
the first (so `attempts = sleeps + 1`), stops with `nil` at the first
successful attempt (success at attempt `j` means `j + 1` attempts and
`j` sleeps), returns the last observed error when all `retryNum`
attempts fail, and `singleExecRetry` applies exactly the same
per-attempt loop to each size-bounded group. -/
theorem execTableBatchRetry_spec (a : Nat → Option SqlErr) (retryNum : Int)
    (h : 1 ≤ retryNum) :
    ((execTableBatchRetry a retryNum).attempts ≤ retryNum.toNat) ∧
    ((execTableBatchRetry a retryNum).attempts = (execTableBatchRetry a retryNum).sleeps + 1) ∧
    (∀ j, j < retryNum.toNat → a j = none → (∀ k < j, a k ≠ none) →
      execTableBatchRetry a retryNum = ⟨j + 1, j, none⟩) ∧
    ((∀ k < retryNum.toNat, a k ≠ none) →
      execTableBatchRetry a retryNum =
        ⟨retryNum.toNat, retryNum.toNat - 1, a (retryNum.toNat - 1)⟩) ∧
    (∀ (groupRes : Nat → Nat → Option SqlErr) (allDMLs : List DML) (size gi : Nat)
        (out : RetryOutcome),
      ((singleExecRetry groupRes allDMLs size retryNum).1).get? gi = some out →
      out = execTableBatchRetry (groupRes gi) retryNum) := by
  have hn : 1 ≤ retryNum.toNat := by omega
  have hsucc : ∀ j, j < retryNum.toNat → a j = none → (∀ k < j, a k ≠ none) →
      execTableBatchRetry a retryNum = ⟨j + 1, j, none⟩ := by
    intro j hj ha hprev
    rw [execTableBatchRetry, retryFrom_success a j retryNum.toNat 0 none hj ha hprev]
    simp
  have hexh : (∀ k < retryNum.toNat, a k ≠ none) →
      execTableBatchRetry a retryNum =
        ⟨retryNum.toNat, retryNum.toNat - 1, a (retryNum.toNat - 1)⟩ := by
    intro hall
    rw [execTableBatchRetry, retryFrom_exhaust a retryNum.toNat 0 none hn hall]
    simp
  have hbound : (execTableBatchRetry a retryNum).attempts ≤ retryNum.toNat ∧
      (execTableBatchRetry a retryNum).attempts =
        (execTableBatchRetry a retryNum).sleeps + 1 := by
    by_cases hall : ∀ k < retryNum.toNat, a k ≠ none
    · rw [hexh hall]
      exact ⟨le_refl _, by simp; omega⟩
    · push_neg at hall
      obtain ⟨k0, hk0, hak0⟩ := hall
      have hex : ∃ m, a m = none := ⟨k0, hak0⟩
      obtain ⟨j, haj, hmin, hjk⟩ : ∃ j, a j = none ∧ (∀ k < j, a k ≠ none) ∧ j ≤ k0 :=
        ⟨Nat.find hex, Nat.find_spec hex,
          fun k hk => Nat.find_min hex hk, Nat.find_min' hex hak0⟩
      rw [hsucc j (by omega) haj hmin]
      exact ⟨by simp; omega, by simp⟩
  refine ⟨hbound.1, hbound.2, hsucc, hexh, ?_⟩
  intro groupRes allDMLs size gi out hget
  have hq := singleExecRetryAux_get groupRes retryNum (splitDMLs allDMLs size) 0 gi out
    (by simpa [singleExecRetry] using hget)
  rw [Nat.zero_add] at hq
  exact hq

/-- Witness for C4, the spec §8 retry scenario: a unit failing twice
then succeeding on the third attempt with `retryNum = 3` returns
success after exactly three attempts and two sleeps. -/
theorem execTableBatchRetry_spec_witness :
    execTableBatchRetry (fun i => if i < 2 then some ⟨"fail"⟩ else none) 3 =
      ⟨3, 2, none⟩ := by
  have h := (execTableBatchRetry_spec (fun i => if i < 2 then some ⟨"fail"⟩ else none) 3
    (by omega)).2.2.1
  exact h 2 (by decide) (by decide) (by decide)

/-- Claim C10: for `retryNum ≤ 0`, `execTableBatchRetry` makes no
attempt and no sleep and returns `nil` (`errors.Trace(nil)` is `nil`),
whatever the input. -/
theorem execTableBatchRetry_nonpos (a : Nat → Option SqlErr) (retryNum : Int)
    (h : retryNum ≤ 0) : execTableBatchRetry a retryNum = ⟨0, 0, none⟩ := by
  rw [execTableBatchRetry, show retryNum.toNat = 0 by omega]
  rfl

/-- Witness for C10 at `retryNum = -1` with an always-failing unit. -/
theorem execTableBatchRetry_nonpos_witness :
    execTableBatchRetry (fun _ => some ⟨"fail"⟩) (-1) = ⟨0, 0, none⟩ :=
  execTableBatchRetry_nonpos (fun _ => some ⟨"fail"⟩) (-1) (by omega)

end Loader

namespace Loader

open DMLType

/-! ## Empty-bucket behaviour (claim about source lines 286-289,
233-236 and 204-231) -/

/-- Counterexample for C7: `bulkDelete` (source lines 204-231) has no
empty-slice guard, so on an empty slice it does call `begin()` (and
executes one empty statement) instead of returning without opening a
transaction. -/
theorem bulkDelete_empty_opens_tx :
    TxOp.beginTx ∈ (bulkDelete oraNone none none ([] : List DML)).ops := by
  decide

/-- Claim C7 (amended): an empty bucket is a no-op for
`execTableBatch` (immediate nil on empty input) and for `bulkReplace`
(nil without `begin()` or `exec()`), while `bulkDelete` on an empty
slice still calls `begin()`, executes one empty statement, and, when
that statement succeeds, commits the transaction. -/
theorem empty_bucket_noop (oracle : SqlStmt → Option SqlErr)
    (beginErr commitErr : Option SqlErr) (size : Nat) (sD sI sU : List Nat) :
    execTableBatch oracle beginErr commitErr [] size sD sI sU =
      ⟨emptyRun, emptyRun, emptyRun, none⟩ ∧
    bulkReplace oracle beginErr commitErr [] = ⟨[], [], none⟩ ∧
    (beginErr = none →
      (bulkDelete oracle beginErr commitErr []).ops.head? = some TxOp.beginTx ∧
      TxOp.execStmt ⟨"", []⟩ ∈ (bulkDelete oracle beginErr commitErr []).ops ∧
      (oracle (bulkDeleteStmt []) = none →
        (bulkDelete oracle beginErr commitErr []).ops =
          [TxOp.beginTx, TxOp.execStmt ⟨"", []⟩, TxOp.commitTx])) := by
  refine ⟨by simp [execTableBatch], by simp [bulkReplace], ?_⟩
  rintro rfl
  rw [bulkDelete.eq_def]
  cases h : oracle (bulkDeleteStmt []) <;>
    cases commitErr <;>
      simp_all [bulkDeleteStmt, String.join]

/-- Witness for the amended C7 with a concrete all-success oracle: the
empty-slice `bulkDelete` trace is begin, one empty exec, commit. -/
theorem empty_bucket_noop_witness :
    (bulkReplace oraNone none none [] = ⟨[], [], none⟩) ∧
    ((bulkDelete oraNone none none []).ops.head? = some TxOp.beginTx) ∧
    ((bulkDelete oraNone none none []).ops =
      [TxOp.beginTx, TxOp.execStmt ⟨"", []⟩, TxOp.commitTx]) := by
  have h := empty_bucket_noop oraNone none none 4 [] [] []
  exact ⟨h.2.1, (h.2.2 rfl).1, (h.2.2 rfl).2.2 rfl⟩

/-! ## Sequential statement execution lemmas -/

lemma execStmts_all_ok (oracle : SqlStmt → Option SqlErr) :
    ∀ ss : List SqlStmt, (∀ x ∈ ss, oracle x = none) →
      execStmts oracle ss = (ss.map TxOp.execStmt, [], none) := by
  intro ss
  induction ss with
  | nil => intro _; rfl
  | cons s rest ih =>
    intro hall
    have hs : oracle s = none := hall s (List.mem_cons_self s rest)
    rw [execStmts, hs, ih (fun x hx => hall x (List.mem_cons_of_mem s hx))]
    rfl

lemma execStmts_first_fail (oracle : SqlStmt → Option SqlErr) (e : SqlErr) :
    ∀ (pre : List SqlStmt) (s : SqlStmt) (post : List SqlStmt),
      (∀ x ∈ pre, oracle x = none) → oracle s = some e →
      execStmts oracle (pre ++ s :: post) =
        ((pre ++ [s]).map TxOp.execStmt, [⟨s.query, s.args⟩], some e) := by
  intro pre
  induction pre with
  | nil =>
    intro s post _ hs
    rw [List.nil_append, execStmts, hs]
    rfl
  | cons p pre ih =>
    intro s post hpre hs
    have hp : oracle p = none := hpre p (List.mem_cons_self p pre)
    rw [List.cons_append, execStmts, hp,
      ih s post (fun x hx => hpre x (List.mem_cons_of_mem p hx)) hs]
    rfl

lemma execStmts_res_none (oracle : SqlStmt → Option SqlErr) :
    ∀ ss : List SqlStmt, (execStmts oracle ss).2.2 = none →
      ∀ x ∈ ss, oracle x = none := by
  intro ss
  induction ss with
  | nil => intro _ x hx; exact absurd hx (List.not_mem_nil x)
  | cons s rest ih =>
    intro hres x hx
    rw [execStmts] at hres
    cases hs : oracle s with
    | some e => rw [hs] at hres; simp at hres
    | none =>
      rw [hs] at hres
      simp only at hres
      rcases List.mem_cons.mp hx with rfl | hx'
      · exact hs
      · exact ih hres x hx'

lemma execStmts_ops_execOnly (oracle : SqlStmt → Option SqlErr) :
    ∀ ss : List SqlStmt, ∃ ts : List SqlStmt,
      (execStmts oracle ss).1 = ts.map TxOp.execStmt := by
  intro ss
  induction ss with
  | nil => exact ⟨[], rfl⟩
  | cons s rest ih =>
    obtain ⟨ts, hts⟩ := ih
    cases hs : oracle s with
    | some e => exact ⟨[s], by simp [execStmts, hs]⟩
    | none => exact ⟨s :: ts, by simp [execStmts, hs, hts]⟩

/-- The per-record loop of `singleExec` executes exactly the flattened
per-record statement lists, sequentially, aborting at the first
failing statement. -/
lemma singleExecLoop_eq (oracle : SqlStmt → Option SqlErr) (safeMode : Bool) :
    ∀ dmls : List DML,
      singleExecLoop oracle safeMode dmls =
        execStmts oracle (dmls.flatMap (stmtsFor safeMode)) := by
  intro dmls
  induction dmls with
  | nil => rfl
  | cons d rest ih =>
    rw [List.flatMap_cons]
    by_cases hu : safeMode && d.Tp == UpdateDMLType
    · rw [singleExecLoop, if_pos hu]
      rw [show stmtsFor safeMode d = [d.deleteSQL, d.replaceSQL] by rw [stmtsFor, if_pos hu]]
      cases h1 : oracle d.deleteSQL with
      | some e => rw [List.cons_append, execStmts, h1]
      | none =>
        cases h2 : oracle d.replaceSQL with
        | some e =>
          rw [List.cons_append, execStmts, h1, List.cons_append, List.nil_append,
            execStmts, h2]
        | none =>
          rw [List.cons_append, execStmts, h1, List.cons_append, List.nil_append,
            execStmts, h2, ih]
    · by_cases hi : safeMode && d.Tp == InsertDMLType
      · rw [singleExecLoop, if_neg hu, if_pos hi]
        rw [show stmtsFor safeMode d = [d.replaceSQL] by rw [stmtsFor, if_neg hu, if_pos hi]]
        cases h1 : oracle d.replaceSQL with
        | some e => rw [List.cons_append, List.nil_append, execStmts, h1]
        | none => rw [List.cons_append, List.nil_append, execStmts, h1, ih]
      · rw [singleExecLoop, if_neg hu, if_neg hi]
        rw [show stmtsFor safeMode d = [d.sql] by rw [stmtsFor, if_neg hu, if_neg hi]]
        cases h1 : oracle d.sql with
        | some e => rw [List.cons_append, List.nil_append, execStmts, h1]
        | none => rw [List.cons_append, List.nil_append, execStmts, h1, ih]

/-- Claim C3: with `safeMode = true`, `singleExec` rewrites each
Update to its `deleteSQL()` then its `replaceSQL()` (independently
checked), each Insert to its `replaceSQL()` only, and each Delete (and
every record when `safeMode = false`) to its natural `sql()`; the
whole group runs sequentially in one transaction, and the first
failing statement rolls back and aborts the group. -/
theorem singleExec_spec (oracle : SqlStmt → Option SqlErr) (commitErr : Option SqlErr)
    (dmls : List DML) (safeMode : Bool) (pre post : List SqlStmt) (s : SqlStmt) (e : SqlErr)
    (hdec : dmls.flatMap (stmtsFor safeMode) = pre ++ s :: post)
    (hpre : ∀ x ∈ pre, oracle x = none)
    (hse : oracle s = some e) :
    (∀ d : DML, stmtsFor true d =
      (match d.Tp with
       | UpdateDMLType => [d.deleteSQL, d.replaceSQL]
       | InsertDMLType => [d.replaceSQL]
       | DeleteDMLType => [d.sql])) ∧
    (∀ d : DML, stmtsFor false d = [d.sql]) ∧
    (∀ (oracle2 : SqlStmt → Option SqlErr) (dmls2 : List DML),
      (∀ x ∈ dmls2.flatMap (stmtsFor safeMode), oracle2 x = none) →
      singleExec oracle2 none commitErr dmls2 safeMode =
        ⟨TxOp.beginTx :: (dmls2.flatMap (stmtsFor safeMode)).map TxOp.execStmt ++
           [TxOp.commitTx], [], commitErr⟩) ∧
    (singleExec oracle none commitErr dmls safeMode =
      ⟨TxOp.beginTx :: (pre ++ [s]).map TxOp.execStmt ++ [TxOp.rollbackTx],
       [⟨s.query, s.args⟩], some e⟩) := by
  refine ⟨?_, ?_, ?_, ?_⟩
  · intro d
    cases hd : d.Tp <;> simp [stmtsFor, hd]
  · intro d
    simp [stmtsFor]
  · intro oracle2 dmls2 hall
    rw [singleExec, singleExecLoop_eq, execStmts_all_ok oracle2 _ hall]
  · rw [singleExec, singleExecLoop_eq, hdec,
      execStmts_first_fail oracle e pre s post hpre hse]

/-- Witness for C3: a safe-mode group `[update, insert]` whose
update's replace statement fails: the delete half runs, the replace
half fails, is logged, the transaction rolls back, and the insert
record's statement is never executed. -/
theorem singleExec_spec_witness :
    singleExec (fun st => if st = specUpd1.replaceSQL then some ⟨"boom"⟩ else none)
        none none [specUpd1, specIns2] true =
      ⟨TxOp.beginTx :: ([specUpd1.deleteSQL] ++ [specUpd1.replaceSQL]).map TxOp.execStmt ++
         [TxOp.rollbackTx],
       [⟨specUpd1.replaceSQL.query, specUpd1.replaceSQL.args⟩], some ⟨"boom"⟩⟩ := by
  have h := (singleExec_spec
    (fun st => if st = specUpd1.replaceSQL then some ⟨"boom"⟩ else none) none
    [specUpd1, specIns2] true [specUpd1.deleteSQL] [specIns2.replaceSQL]
    specUpd1.replaceSQL ⟨"boom"⟩ (by decide) (by decide) (by decide)).2.2.2
  exact h

/-- Claim C5: in `bulkDelete`, `bulkReplace` and `singleExec` the
first statement execution error rolls the transaction back and is
propagated, `commit` is never invoked after a statement error, a
commit in the trace means every statement of the batch succeeded (all
or none), and `tx.exec` itself never rolls back. -/
theorem batch_atomicity (oracle : SqlStmt → Option SqlErr) (commitErr : Option SqlErr)
    (ds ins dmls : List DML) (safeMode : Bool) (pre post : List SqlStmt) (s : SqlStmt)
    (e ed ei : SqlErr)
    (hd : oracle (bulkDeleteStmt ds) = some ed)
    (hins : ins ≠ [])
    (hi : oracle (bulkReplaceStmt ins) = some ei)
    (hdec : dmls.flatMap (stmtsFor safeMode) = pre ++ s :: post)
    (hpre : ∀ x ∈ pre, oracle x = none)
    (hse : oracle s = some e) :
    (bulkDelete oracle none commitErr ds =
      ⟨[TxOp.beginTx, TxOp.execStmt (bulkDeleteStmt ds), TxOp.rollbackTx],
       [⟨(bulkDeleteStmt ds).query, (bulkDeleteStmt ds).args⟩], some ed⟩) ∧
    (bulkReplace oracle none commitErr ins =
      ⟨[TxOp.beginTx, TxOp.execStmt (bulkReplaceStmt ins), TxOp.rollbackTx],
       [⟨(bulkReplaceStmt ins).query, (bulkReplaceStmt ins).args⟩], some ei⟩) ∧
    (singleExec oracle none commitErr dmls safeMode =
      ⟨TxOp.beginTx :: (pre ++ [s]).map TxOp.execStmt ++ [TxOp.rollbackTx],
       [⟨s.query, s.args⟩], some e⟩) ∧
    (TxOp.commitTx ∉ (bulkDelete oracle none commitErr ds).ops) ∧
    (TxOp.commitTx ∉ (bulkReplace oracle none commitErr ins).ops) ∧
    (TxOp.commitTx ∉ (singleExec oracle none commitErr dmls safeMode).ops) ∧
    (∀ (oracle2 : SqlStmt → Option SqlErr) (dmls2 : List DML) (sm2 : Bool),
      TxOp.commitTx ∈ (singleExec oracle2 none commitErr dmls2 sm2).ops →
      ∀ x ∈ dmls2.flatMap (stmtsFor sm2), oracle2 x = none) ∧
    (∀ (oracle2 : SqlStmt → Option SqlErr) (s2 : SqlStmt),
      TxOp.rollbackTx ∉ (txExec oracle2 s2).1) := by
  have hbd : bulkDelete oracle none commitErr ds =
      ⟨[TxOp.beginTx, TxOp.execStmt (bulkDeleteStmt ds), TxOp.rollbackTx],
       [⟨(bulkDeleteStmt ds).query, (bulkDeleteStmt ds).args⟩], some ed⟩ := by
    simp only [bulkDelete.eq_def, hd]
  have hbr : bulkReplace oracle none commitErr ins =
      ⟨[TxOp.beginTx, TxOp.execStmt (bulkReplaceStmt ins), TxOp.rollbackTx],
       [⟨(bulkReplaceStmt ins).query, (bulkReplaceStmt ins).args⟩], some ei⟩ := by
    simp only [bulkReplace.eq_def, hi]
    rw [if_neg (by simpa [List.isEmpty_iff] using hins)]
  have hse' : singleExec oracle none commitErr dmls safeMode =
      ⟨TxOp.beginTx :: (pre ++ [s]).map TxOp.execStmt ++ [TxOp.rollbackTx],
       [⟨s.query, s.args⟩], some e⟩ := by
    rw [singleExec, singleExecLoop_eq, hdec,
      execStmts_first_fail oracle e pre s post hpre hse]
  refine ⟨hbd, hbr, hse', ?_, ?_, ?_, ?_, ?_⟩
  · rw [hbd]; simp
  · rw [hbr]; simp
  · rw [hse']; simp
  · intro oracle2 dmls2 sm2 hmem
    rw [singleExec, singleExecLoop_eq] at hmem
    cases hres : (execStmts oracle2 (dmls2.flatMap (stmtsFor sm2))).2.2 with
    | some e2 =>
      rw [hres] at hmem
      obtain ⟨ts, hts⟩ := execStmts_ops_execOnly oracle2 (dmls2.flatMap (stmtsFor sm2))
      rw [hts] at hmem
      simp at hmem
    | none => exact execStmts_res_none oracle2 _ hres
  · intro oracle2 s2
    simp [txExec]

/-- Witness for C5: concrete failing bulk and single executions. -/
theorem batch_atomicity_witness :
    bulkDelete oraDup none none [specDel2] =
      ⟨[TxOp.beginTx, TxOp.execStmt (bulkDeleteStmt [specDel2]), TxOp.rollbackTx],
       [⟨(bulkDeleteStmt [specDel2]).query, (bulkDeleteStmt [specDel2]).args⟩],
       some ⟨"Duplicate entry"⟩⟩ := by
  have h := (batch_atomicity oraDup none [specDel2] [specIns2] [specDel2] false
    [] [] specDel2.sql ⟨"Duplicate entry"⟩ ⟨"Duplicate entry"⟩ ⟨"Duplicate entry"⟩
    (by decide) (by decide) (by decide) (by decide) (by decide) (by decide)).1
  exact h

/-- Counterexample for C8: under a driver error `Duplicate entry` the
error value `bulkDelete` propagates is exactly the driver's error,
which is strictly shorter than the failing statement text and hence
cannot contain it: the error value is not enriched with the statement
text, which goes only to the error log. -/
theorem sql_error_not_enriched :
    (bulkDelete oraDup none none [specDel2]).res = some ⟨"Duplicate entry"⟩ ∧
    ("Duplicate entry").length < (bulkDeleteStmt [specDel2]).query.length := by
  refine ⟨by decide, by decide⟩

/-- Claim C8 (amended): every SQL execution error in `bulkDelete`,
`bulkReplace` or `singleExec` is recorded in an error-level log entry
carrying the failing statement text and its arguments, and the error
value itself is propagated to the caller unchanged (only
trace-annotated, not enriched with the statement text); no SQL error
is silently swallowed. -/
theorem sql_error_logged (oracle : SqlStmt → Option SqlErr) (commitErr : Option SqlErr)
    (ds ins dmls : List DML) (safeMode : Bool) (pre post : List SqlStmt) (s : SqlStmt)
    (e ed ei : SqlErr)
    (hd : oracle (bulkDeleteStmt ds) = some ed)
    (hins : ins ≠ [])
    (hi : oracle (bulkReplaceStmt ins) = some ei)
    (hdec : dmls.flatMap (stmtsFor safeMode) = pre ++ s :: post)
    (hpre : ∀ x ∈ pre, oracle x = none)
    (hse : oracle s = some e) :
    ((bulkDelete oracle none commitErr ds).res = some ed ∧
     (bulkDelete oracle none commitErr ds).logs =
       [⟨(bulkDeleteStmt ds).query, (bulkDeleteStmt ds).args⟩]) ∧
    ((bulkReplace oracle none commitErr ins).res = some ei ∧
     (bulkReplace oracle none commitErr ins).logs =
       [⟨(bulkReplaceStmt ins).query, (bulkReplaceStmt ins).args⟩]) ∧
    ((singleExec oracle none commitErr dmls safeMode).res = some e ∧
     (singleExec oracle none commitErr dmls safeMode).logs = [⟨s.query, s.args⟩]) := by
  have hbd : bulkDelete oracle none commitErr ds =
      ⟨[TxOp.beginTx, TxOp.execStmt (bulkDeleteStmt ds), TxOp.rollbackTx],
       [⟨(bulkDeleteStmt ds).query, (bulkDeleteStmt ds).args⟩], some ed⟩ := by
    simp only [bulkDelete.eq_def, hd]
  have hbr : bulkReplace oracle none commitErr ins =
      ⟨[TxOp.beginTx, TxOp.execStmt (bulkReplaceStmt ins), TxOp.rollbackTx],
       [⟨(bulkReplaceStmt ins).query, (bulkReplaceStmt ins).args⟩], some ei⟩ := by
    simp only [bulkReplace.eq_def, hi]
    rw [if_neg (by simpa [List.isEmpty_iff] using hins)]
  have hsx : singleExec oracle none commitErr dmls safeMode =
      ⟨TxOp.beginTx :: (pre ++ [s]).map TxOp.execStmt ++ [TxOp.rollbackTx],
       [⟨s.query, s.args⟩], some e⟩ := by
    rw [singleExec, singleExecLoop_eq, hdec,
      execStmts_first_fail oracle e pre s post hpre hse]
  rw [hbd, hbr, hsx]
  exact ⟨⟨rfl, rfl⟩, ⟨rfl, rfl⟩, ⟨rfl, rfl⟩⟩

/-- Witness for C8 (amended) at a concrete failing bulk replace. -/
theorem sql_error_logged_witness :
    (bulkReplace oraDup none none [specIns2]).res = some ⟨"Duplicate entry"⟩ ∧
    (bulkReplace oraDup none none [specIns2]).logs =
      [⟨(bulkReplaceStmt [specIns2]).query, (bulkReplaceStmt [specIns2]).args⟩] := by
  have h := (sql_error_logged oraDup none [specDel2] [specIns2] [specDel2] false
    [] [] specDel2.sql ⟨"Duplicate entry"⟩ ⟨"Duplicate entry"⟩ ⟨"Duplicate entry"⟩
    (by decide) (by decide) (by decide) (by decide) (by decide) (by decide)).2.1
  exact h

/-! ## Parallel Batch Runner lemmas -/

lemma schedOrder_perm (n : Nat) (sched : List Nat) :
    (schedOrder n sched).Perm (List.range n) := by
  by_cases h : sched.isPerm (List.range n)
  · rw [schedOrder, if_pos h]
    exact List.isPerm_iff.mp h
  · rw [schedOrder, if_neg h]

lemma mem_schedOrder {n i : Nat} {sched : List Nat} :
    i ∈ schedOrder n sched ↔ i < n :=
  ((schedOrder_perm n sched).mem_iff).trans List.mem_range

lemma sublist_flatMap_of_mem {α β : Type} {l : List α} {a : α} (h : a ∈ l)
    (f : α → List β) : (f a).Sublist (l.flatMap f) := by
  induction l with
  | nil => exact absurd h (List.not_mem_nil a)
  | cons b l ih =>
    rw [List.flatMap_cons]
    rcases List.mem_cons.mp h with rfl | h2
    · exact List.sublist_append_left _ _
    · exact (ih h2).trans (List.sublist_append_right _ _)

lemma mem_splitRuns {execF : List DML → RunResult} {dmls : List DML} {size : Nat}
    {sched : List Nat} {run : RunResult} :
    (run ∈ (schedOrder (splitDMLs dmls size).length sched).map
        (fun i => execF ((splitDMLs dmls size).getD i []))) ↔
      ∃ sp ∈ splitDMLs dmls size, execF sp = run := by
  constructor
  · intro h
    obtain ⟨i, hi, heq⟩ := List.mem_map.mp h
    have hlt : i < (splitDMLs dmls size).length := mem_schedOrder.mp hi
    refine ⟨(splitDMLs dmls size).getD i [], ?_, heq⟩
    rw [List.getD_eq_getElem?_getD, List.getElem?_eq_getElem hlt]
    exact List.getElem_mem hlt
  · rintro ⟨sp, hsp, rfl⟩
    obtain ⟨i, hi⟩ := List.mem_iff_getElem?.mp hsp
    have hlt : i < (splitDMLs dmls size).length := by
      by_contra hge
      rw [List.getElem?_eq_none (by omega)] at hi
      exact Option.noConfusion hi
    refine List.mem_map.mpr ⟨i, mem_schedOrder.mpr hlt, ?_⟩
    rw [List.getD_eq_getElem?_getD, hi]
    rfl

/-- Claim C6: `splitExecDML` returns `nil` iff every sub-batch's exec
returns `nil`; on failure it returns one of the sub-batch errors (the
first in completion order); and every sub-batch runs to completion —
each sub-batch's operations appear in the overall trace whatever the
outcome. -/
theorem splitExecDML_spec (execF : List DML → RunResult) (dmls : List DML)
    (size : Nat) (sched : List Nat) :
    ((splitExecDML execF dmls size sched).res = none ↔
      ∀ sp ∈ splitDMLs dmls size, (execF sp).res = none) ∧
    (∀ e, (splitExecDML execF dmls size sched).res = some e →
      ∃ sp ∈ splitDMLs dmls size, (execF sp).res = some e) ∧
    (∀ sp ∈ splitDMLs dmls size,
      (execF sp).ops.Sublist (splitExecDML execF dmls size sched).ops) := by
  refine ⟨?_, ?_, ?_⟩
  · rw [show (splitExecDML execF dmls size sched).res =
        (((schedOrder (splitDMLs dmls size).length sched).map
          (fun i => execF ((splitDMLs dmls size).getD i []))).filterMap
            RunResult.res).head? from rfl]
    rw [List.head?_eq_none_iff, List.filterMap_eq_nil_iff]
    constructor
    · intro h sp hsp
      exact h (execF sp) (mem_splitRuns.mpr ⟨sp, hsp, rfl⟩)
    · intro h run hrun
      obtain ⟨sp, hsp, rfl⟩ := mem_splitRuns.mp hrun
      exact h sp hsp
  · intro e he
    rw [show (splitExecDML execF dmls size sched).res =
        (((schedOrder (splitDMLs dmls size).length sched).map
          (fun i => execF ((splitDMLs dmls size).getD i []))).filterMap
            RunResult.res).head? from rfl] at he
    have hmem := List.mem_of_mem_head? (by rw [he]; exact rfl)
    obtain ⟨run, hrun, hres⟩ := List.mem_filterMap.mp hmem
    obtain ⟨sp, hsp, rfl⟩ := mem_splitRuns.mp hrun
    exact ⟨sp, hsp, hres⟩
  · intro sp hsp
    rw [show (splitExecDML execF dmls size sched).ops =
        ((schedOrder (splitDMLs dmls size).length sched).map
          (fun i => execF ((splitDMLs dmls size).getD i []))).flatMap
            RunResult.ops from rfl]
    exact sublist_flatMap_of_mem (mem_splitRuns.mpr ⟨sp, hsp, rfl⟩) RunResult.ops

/-- Witness for C6: two singleton sub-batches, the second failing in
schedule order; the overall result is that sub-batch's error and both
sub-batches' operations are in the trace. -/
theorem splitExecDML_spec_witness :
    (¬((splitExecDML (bulkDelete (fun st => if st = bulkDeleteStmt [specIns2]
          then some ⟨"boom"⟩ else none) none none) [specDel2, specIns2] 1
        [1, 0]).res = none)) ∧
    (∃ sp ∈ splitDMLs [specDel2, specIns2] 1,
      (bulkDelete (fun st => if st = bulkDeleteStmt [specIns2]
          then some ⟨"boom"⟩ else none) none none sp).res = some ⟨"boom"⟩) := by
  have h := splitExecDML_spec (bulkDelete (fun st => if st = bulkDeleteStmt [specIns2]
      then some ⟨"boom"⟩ else none) none none) [specDel2, specIns2] 1 [1, 0]
  refine ⟨?_, h.2.1 ⟨"boom"⟩ (by decide)⟩
  intro hnone
  have := (h.1.mp hnone) [specIns2] (by decide)
  revert this
  decide

/-- Claim C2: for non-empty merged input, `execTableBatch` applies
the Delete bucket fully (one whole `splitExecDML`, which waits for all
its sub-batches) before the Insert bucket, and the Insert bucket
before the Update bucket; a Delete-stage error is propagated and no
Insert or Update work starts; an Insert-stage error is propagated and
no Update work starts. -/
theorem execTableBatch_ordering (oracle : SqlStmt → Option SqlErr)
    (beginErr commitErr : Option SqlErr) (dmls : List DML) (size : Nat)
    (sD sI sU : List Nat) (mr : MergeResult)
    (hne : dmls ≠ [])
    (hm : mergeByPrimaryKey dmls = Except.ok mr) :
    ((execTableBatch oracle beginErr commitErr dmls size sD sI sU).delRun =
      splitExecDML (bulkDelete oracle beginErr commitErr) mr.deletes size sD) ∧
    (∀ e, (splitExecDML (bulkDelete oracle beginErr commitErr) mr.deletes size sD).res =
        some e →
      execTableBatch oracle beginErr commitErr dmls size sD sI sU =
        ⟨splitExecDML (bulkDelete oracle beginErr commitErr) mr.deletes size sD,
         emptyRun, emptyRun, some e⟩) ∧
    ((splitExecDML (bulkDelete oracle beginErr commitErr) mr.deletes size sD).res = none →
      (execTableBatch oracle beginErr commitErr dmls size sD sI sU).insRun =
        splitExecDML (bulkReplace oracle beginErr commitErr) mr.inserts size sI) ∧
    (∀ e, (splitExecDML (bulkDelete oracle beginErr commitErr) mr.deletes size sD).res =
        none →
      (splitExecDML (bulkReplace oracle beginErr commitErr) mr.inserts size sI).res =
        some e →
      execTableBatch oracle beginErr commitErr dmls size sD sI sU =
        ⟨splitExecDML (bulkDelete oracle beginErr commitErr) mr.deletes size sD,
         splitExecDML (bulkReplace oracle beginErr commitErr) mr.inserts size sI,
         emptyRun, some e⟩) ∧
    ((splitExecDML (bulkDelete oracle beginErr commitErr) mr.deletes size sD).res = none →
      (splitExecDML (bulkReplace oracle beginErr commitErr) mr.inserts size sI).res =
        none →
      execTableBatch oracle beginErr commitErr dmls size sD sI sU =
        ⟨splitExecDML (bulkDelete oracle beginErr commitErr) mr.deletes size sD,
         splitExecDML (bulkReplace oracle beginErr commitErr) mr.inserts size sI,
         splitExecDML (bulkReplace oracle beginErr commitErr) mr.updates size sU,
         (splitExecDML (bulkReplace oracle beginErr commitErr) mr.updates size sU).res⟩) ∧
    ((execTableBatch oracle beginErr commitErr dmls size sD sI sU).insRun ≠ emptyRun →
      (splitExecDML (bulkDelete oracle beginErr commitErr) mr.deletes size sD).res =
        none) ∧
    ((execTableBatch oracle beginErr commitErr dmls size sD sI sU).updRun ≠ emptyRun →
      (splitExecDML (bulkDelete oracle beginErr commitErr) mr.deletes size sD).res =
        none ∧
      (splitExecDML (bulkReplace oracle beginErr commitErr) mr.inserts size sI).res =
        none) := by
  have hnem : dmls.isEmpty = false := by simpa [List.isEmpty_iff] using hne
  simp only [execTableBatch, hnem, Bool.false_eq_true, if_false, hm]
  cases hd : (splitExecDML (bulkDelete oracle beginErr commitErr) mr.deletes size sD).res with
  | some e => simp
  | none =>
    cases hi : (splitExecDML (bulkReplace oracle beginErr commitErr) mr.inserts size sI).res
      with
    | some e => simp
    | none => simp

/-- Witness for C2 at the spec scenario with an all-success oracle:
once the (empty) Delete stage succeeds, the Insert bucket is applied
through `splitExecDML`. -/
theorem execTableBatch_ordering_witness :
    (execTableBatch oraNone none none specDMLs 128 [] [] []).insRun =
      splitExecDML (bulkReplace oraNone none none) specMerge.inserts 128 [] := by
  exact (execTableBatch_ordering oraNone none none specDMLs 128 [] [] [] specMerge
    (by decide) (by rfl)).2.2.1 (by decide)

end Loader

namespace Restore

open Loader (SqlErr)

/-- Claim C9: in the `Restore.Start` payload loop, an execution error
classified ignorable by `IgnoreDDLError` is logged as a warning and
processing continues with the remaining payloads; a non-ignorable
execution error stops processing and is returned. -/
theorem startLoop_exec_error (ign : SqlErr → Bool) (p : Payload)
    (rest : List Payload) (e : SqlErr)
    (ht : p.translateErr = none) (he : p.execErr = some e) :
    (ign e = true →
      startLoop ign (p :: rest) =
        ⟨(startLoop ign rest).executed + 1, e :: (startLoop ign rest).warns,
         (startLoop ign rest).res⟩) ∧
    (ign e = false → startLoop ign (p :: rest) = ⟨1, [], some e⟩) := by
  constructor
  · intro hig
    rw [startLoop, ht, he]
    simp [hig]
  · intro hig
    rw [startLoop, ht, he]
    simp [hig]

/-- Witness for C9 at concrete payloads: the same failing payload is
warned past by an accepting classifier and fatal under a rejecting
one. -/
theorem startLoop_exec_error_witness :
    (startLoop (fun _ => true)
        [⟨["sql1"], [[]], true, none, some ⟨"exists"⟩⟩,
         ⟨["sql2"], [[]], false, none, none⟩] =
      ⟨2, [⟨"exists"⟩], none⟩) ∧
    (startLoop (fun _ => false)
        [⟨["sql1"], [[]], true, none, some ⟨"exists"⟩⟩,
         ⟨["sql2"], [[]], false, none, none⟩] =
      ⟨1, [], some ⟨"exists"⟩⟩) := by
  constructor
  · have h := (startLoop_exec_error (fun _ => true)
      ⟨["sql1"], [[]], true, none, some ⟨"exists"⟩⟩
      [⟨["sql2"], [[]], false, none, none⟩] ⟨"exists"⟩ (by decide) (by decide)).1 (by decide)
    rw [h]
    decide
  · exact (startLoop_exec_error (fun _ => false)
      ⟨["sql1"], [[]], true, none, some ⟨"exists"⟩⟩
      [⟨["sql2"], [[]], false, none, none⟩] ⟨"exists"⟩ (by decide) (by decide)).2 (by decide)

end Restore
